import Mathlib

/-!
Verification of the gh-community-analytics response-time engine.

Shallow embedding of the repository's metrics engine (`utils.ts`,
`github.ts`, `metrics.ts`, `index.ts`) and proofs about it.

Modelling conventions:
* An instant is the JavaScript `Date` value: milliseconds since the Unix
  epoch, here a `Nat` (the program only ever handles instants after 1970).
  The deployment calendar is UTC, so `getDay`/`setDate`/`setHours` act on
  day boundaries every 86400000 ms; day index 0 (1970-01-01) is a Thursday,
  so JavaScript's `getDay` (0 = Sunday) of an instant `t` is
  `(t / 86400000 + 4) % 7`.
* JavaScript numbers are modelled as exact rationals (`ℚ`).
* `JavaScript`'s stable `Array.prototype.sort` with a numeric comparator is
  modelled by `List.insertionSort` over the comparator's order; for the
  total orders used here the sorted output is determined by the multiset of
  inputs, so the choice of stable sorting algorithm is immaterial.
* Fallible fetches are modelled as `Except String` values, the `String`
  being the error message.
-/

/-- One calendar day in milliseconds. -/
def dayMs : Nat := 86400000

/-- One hour in milliseconds. -/
def hourMs : Nat := 3600000

/-- Calendar day index of an instant: days since the epoch. -/
def dayIndex (t : Nat) : Nat := t / dayMs

/-- JavaScript `getDay` of a calendar day index: 0 = Sunday … 6 = Saturday. -/
def dayOfWeekDay (d : Nat) : Nat := (d + 4) % 7

/-- JavaScript `Date.prototype.getDay` of an instant. -/
def dayOfWeek (t : Nat) : Nat := dayOfWeekDay (dayIndex t)

/-- The weekend test of `calculateWorkingHours` (utils.ts line 93,
`dayOfWeek !== 0 && dayOfWeek !== 6` negated). -/
def isWeekendMs (t : Nat) : Bool := dayOfWeek t == 0 || dayOfWeek t == 6

/-- Weekday test on a calendar day index. -/
def isWeekdayDay (d : Nat) : Bool := !(dayOfWeekDay d == 0 || dayOfWeekDay d == 6)

/-- Midnight starting the calendar day after `t`: the
`nextDay.setDate(getDate() + 1); nextDay.setHours(0,0,0,0)` step of
`calculateWorkingHours` (utils.ts lines 94–96 and 103–104). -/
def nextMidnight (t : Nat) : Nat := (dayIndex t + 1) * dayMs

/-- The `while (currentDate < end)` loop of `calculateWorkingHours`
(utils.ts lines 89–105), accumulating the working milliseconds; each
iteration advances `currentDate` to the next midnight, so the day count
`dayIndex e + 1 - dayIndex cur` bounds the iteration count and is used as
structural fuel. -/
def workingMillisGo : Nat → Nat → Nat → Nat
  | 0, _, _ => 0
  | fuel + 1, cur, e =>
    if cur < e then
      (if isWeekendMs cur then 0 else min (nextMidnight cur) e - cur) +
        workingMillisGo fuel (nextMidnight cur) e
    else 0

/-- Working milliseconds between two instants: the loop of
`calculateWorkingHours` run to completion. -/
def workingMillis (start e : Nat) : Nat :=
  workingMillisGo (dayIndex e + 1 - dayIndex start) start e

/-- `calculateWorkingHours` (utils.ts lines 83–108): working hours between
two dates, excluding weekends.  The JavaScript code accumulates
`periodMs / (1000 * 60 * 60)` per day; over exact rationals this equals the
total working milliseconds divided by 3600000. -/
def calculateWorkingHours (start e : Nat) : ℚ :=
  if e < start then 0 else (workingMillis start e : ℚ) / 3600000

/-- `isWithinOneWorkingDay` (utils.ts lines 113–116). -/
def isWithinOneWorkingDay (start e : Nat) : Bool :=
  decide (calculateWorkingHours start e ≤ 24)

/-- `getWeekStart` (utils.ts lines 121–128): midnight of the Monday of the
week of `t`.  `diff = getDate() - day + (day === 0 ? -6 : 1)` followed by
`setDate(diff); setHours(0,0,0,0)` moves back `day - 1` days (6 for
Sunday) and truncates to midnight; the result can precede the epoch, hence
`Int`. -/
def getWeekStart (t : Nat) : Int :=
  let day := dayOfWeek t
  let back : Nat := if day = 0 then 6 else day - 1
  ((dayIndex t : Int) - (back : Int)) * (dayMs : Int)

lemma workingMillisGo_of_ge (fuel cur e : Nat) (h : e ≤ cur) :
    workingMillisGo fuel cur e = 0 := by
  cases fuel with
  | zero => rfl
  | succ n => simp [workingMillisGo, Nat.not_lt.mpr h]

lemma dayIndex_le_dayIndex {s e : Nat} (h : s ≤ e) : dayIndex s ≤ dayIndex e :=
  Nat.div_le_div_right h

lemma lt_nextMidnight (t : Nat) : t < nextMidnight t := by
  simp only [nextMidnight, dayIndex, dayMs]; omega

lemma nextMidnight_le {t e : Nat} (h : dayIndex t < dayIndex e) :
    nextMidnight t ≤ e := by
  simp only [nextMidnight, dayIndex, dayMs] at *; omega

lemma dayIndex_nextMidnight (t : Nat) : dayIndex (nextMidnight t) = dayIndex t + 1 := by
  simp only [nextMidnight, dayIndex, dayMs]; omega

lemma workingMillisGo_fuel (f1 : Nat) :
    ∀ f2 cur e : Nat, dayIndex e < dayIndex cur + f1 → dayIndex e < dayIndex cur + f2 →
    workingMillisGo f1 cur e = workingMillisGo f2 cur e := by
  induction f1 with
  | zero =>
    intro f2 cur e h1 _
    have he : e ≤ cur := by
      by_contra hc
      exact absurd (dayIndex_le_dayIndex (Nat.le_of_not_le hc)) (by omega)
    rw [workingMillisGo_of_ge _ _ _ he, workingMillisGo_of_ge _ _ _ he]
  | succ n ih =>
    intro f2 cur e h1 h2
    cases f2 with
    | zero =>
      have he : e ≤ cur := by
        by_contra hc
        exact absurd (dayIndex_le_dayIndex (Nat.le_of_not_le hc)) (by omega)
      rw [workingMillisGo_of_ge _ _ _ he, workingMillisGo_of_ge _ _ _ he]
    | succ m =>
      simp only [workingMillisGo]
      by_cases hce : cur < e
      · rw [if_pos hce, if_pos hce,
          ih m (nextMidnight cur) e (by rw [dayIndex_nextMidnight]; omega)
            (by rw [dayIndex_nextMidnight]; omega)]
      · rw [if_neg hce, if_neg hce]

lemma workingMillis_of_ge {s e : Nat} (h : e ≤ s) : workingMillis s e = 0 :=
  workingMillisGo_of_ge _ _ _ h

/-- One unrolling of the `calculateWorkingHours` loop. -/
lemma workingMillis_step {cur e : Nat} (h : cur < e) :
    workingMillis cur e =
      (if isWeekendMs cur then 0 else min (nextMidnight cur) e - cur) +
        workingMillis (nextMidnight cur) e := by
  have hd : dayIndex cur ≤ dayIndex e := dayIndex_le_dayIndex (Nat.le_of_lt h)
  have hf : dayIndex e + 1 - dayIndex cur = (dayIndex e - dayIndex cur) + 1 := by omega
  rw [workingMillis, hf]
  simp only [workingMillisGo, if_pos h]
  congr 1
  rw [workingMillis]
  exact workingMillisGo_fuel _ _ _ _ (by rw [dayIndex_nextMidnight]; omega)
    (by rw [dayIndex_nextMidnight]; omega)

/-- If every calendar day from `cur`'s to `e`'s is a weekday, the loop counts
every millisecond of `[cur, e)`. -/
lemma workingMillisGo_all_weekday (fuel : Nat) :
    ∀ cur e : Nat, cur ≤ e → dayIndex e < dayIndex cur + fuel →
    (∀ d, dayIndex cur ≤ d → d ≤ dayIndex e → isWeekdayDay d = true) →
    workingMillisGo fuel cur e = e - cur := by
  induction fuel with
  | zero =>
    intro cur e hle h1 _
    have := dayIndex_le_dayIndex hle
    omega
  | succ n ih =>
    intro cur e hle h1 hwd
    by_cases hce : cur < e
    · have hdcur : isWeekdayDay (dayIndex cur) = true :=
        hwd _ le_rfl (dayIndex_le_dayIndex hle)
      have hwk : isWeekendMs cur = false := by
        simp only [isWeekendMs, dayOfWeek, isWeekdayDay, Bool.not_eq_true',
          Bool.not_eq_eq_eq_not] at hdcur ⊢
        simpa using hdcur
      simp only [workingMillisGo, if_pos hce, hwk, Bool.false_eq_true, if_false]
      by_cases hnm : nextMidnight cur < e
      · have hrec := ih (nextMidnight cur) e (Nat.le_of_lt hnm)
          (by rw [dayIndex_nextMidnight]; omega)
          (fun d hd1 hd2 => hwd d (by rw [dayIndex_nextMidnight] at hd1; omega) hd2)
        rw [hrec]
        have h2 := lt_nextMidnight cur
        rw [min_eq_left (Nat.le_of_lt hnm)]
        omega
      · rw [workingMillisGo_of_ge _ _ _ (Nat.le_of_not_lt hnm),
          min_eq_right (Nat.le_of_not_lt hnm)]
        omega
    · rw [workingMillisGo_of_ge _ _ _ (Nat.le_of_not_lt hce)]
      omega

/-- If every calendar day the loop touches is a weekend day, nothing is
counted. -/
lemma workingMillisGo_all_weekend (fuel : Nat) :
    ∀ cur e : Nat,
    (∀ d, dayIndex cur ≤ d → d * dayMs < e → isWeekdayDay d = false) →
    workingMillisGo fuel cur e = 0 := by
  induction fuel with
  | zero => intro cur e _; rfl
  | succ n ih =>
    intro cur e hwe
    by_cases hce : cur < e
    · have hcurday : dayIndex cur * dayMs ≤ cur := Nat.div_mul_le_self _ _
      have hdcur : isWeekdayDay (dayIndex cur) = false :=
        hwe _ le_rfl (by omega)
      have hwk : isWeekendMs cur = true := by
        simp only [isWeekdayDay, Bool.not_eq_false'] at hdcur
        simpa only [isWeekendMs, dayOfWeek] using hdcur
      simp only [workingMillisGo, if_pos hce, hwk, if_true, Nat.zero_add]
      exact ih (nextMidnight cur) e
        (fun d hd1 hd2 => hwe d (by rw [dayIndex_nextMidnight] at hd1; omega) hd2)
    · exact workingMillisGo_of_ge _ _ _ (Nat.le_of_not_lt hce)

/-- Splitting the loop at an intermediate midnight. -/
lemma workingMillis_split (s m e : Nat) (h1 : s ≤ m) (h2 : m ≤ e)
    (hm : dayMs ∣ m) : workingMillis s e = workingMillis s m + workingMillis m e := by
  rcases Nat.eq_or_lt_of_le h1 with rfl | hlt
  · rw [workingMillis_of_ge le_rfl, Nat.zero_add]
  · have hnm : nextMidnight s ≤ m := by
      rcases hm with ⟨q, rfl⟩
      simp only [nextMidnight, dayIndex, dayMs] at *
      omega
    have hse : s < e := lt_of_lt_of_le hlt h2
    rw [workingMillis_step hse, workingMillis_step hlt,
      workingMillis_split (nextMidnight s) m e hnm h2 hm,
      min_eq_left (le_trans hnm h2), min_eq_left hnm]
    omega
termination_by m - s
decreasing_by
  have := lt_nextMidnight s
  omega

/-- Claim C3: for every pair of instants `start ≤ e` such that every calendar
day from `start`'s day through `e`'s day is a weekday (both endpoints fall
on weekdays and no Saturday or Sunday lies between them),
`calculateWorkingHours start e` equals the exact wall-clock difference
`e - start` expressed in fractional hours. -/
theorem calculateWorkingHours_weekday_exact (start e : Nat) (hle : start ≤ e)
    (hwd : ∀ d ∈ Finset.Icc (dayIndex start) (dayIndex e), isWeekdayDay d = true) :
    calculateWorkingHours start e = ((e : ℚ) - (start : ℚ)) / 3600000 := by
  have hwm : workingMillis start e = e - start :=
    workingMillisGo_all_weekday _ start e hle (by omega)
      (fun d h1 h2 => hwd d (Finset.mem_Icc.mpr ⟨h1, h2⟩))
  rw [calculateWorkingHours, if_neg (Nat.not_lt.mpr hle), hwm, Nat.cast_sub hle]

/-- Witness for C3: Monday 1970-01-05 09:00 UTC to Monday 15:00 UTC. -/
theorem calculateWorkingHours_weekday_exact_witness :
    calculateWorkingHours 378000000 399600000 =
      ((399600000 : ℚ) - (378000000 : ℚ)) / 3600000 :=
  calculateWorkingHours_weekday_exact 378000000 399600000 (by decide) (by decide)

/-- Claim C4: a full weekend contributes zero working hours: whenever
`start` lies on or before a Saturday midnight `satd * dayMs` and `e` on or
after the following Monday midnight `(satd + 2) * dayMs`, the 48-hour
weekend block `[satd * dayMs, (satd + 2) * dayMs)` adds 0 to
`calculateWorkingHours`'s accumulator, the total being the sum of the two
weekday-side parts; concretely, from Friday 1970-01-02 17:00 UTC to Monday
1970-01-05 10:00 UTC the function returns 17 hours and
`isWithinOneWorkingDay` returns true. -/
theorem workingHours_weekend_zero :
    (∀ start e satd : Nat, dayOfWeekDay satd = 6 → start ≤ satd * dayMs →
        (satd + 2) * dayMs ≤ e →
        workingMillis start e =
          workingMillis start (satd * dayMs) + workingMillis ((satd + 2) * dayMs) e ∧
        workingMillis (satd * dayMs) ((satd + 2) * dayMs) = 0) ∧
    calculateWorkingHours 147600000 381600000 = 17 ∧
    isWithinOneWorkingDay 147600000 381600000 = true := by
  have h17 : calculateWorkingHours 147600000 381600000 = 17 := by
    have hwm : workingMillis 147600000 381600000 = 61200000 := by decide
    rw [calculateWorkingHours, if_neg (by norm_num), hwm]
    norm_num
  refine ⟨?_, h17, ?_⟩
  · intro start e satd hsat h1 h2
    have hz : workingMillis (satd * dayMs) ((satd + 2) * dayMs) = 0 := by
      apply workingMillisGo_all_weekend
      intro d hd1 hd2
      simp only [dayIndex, dayMs] at hd1
      simp only [dayMs] at hd2
      simp only [dayOfWeekDay] at hsat
      simp only [isWeekdayDay, dayOfWeekDay, Bool.not_eq_false', Bool.or_eq_true,
        beq_iff_eq]
      omega
    have hmid : satd * dayMs ≤ (satd + 2) * dayMs := by simp only [dayMs]; omega
    have hsplit1 := workingMillis_split start (satd * dayMs) e h1
      (le_trans hmid h2) ⟨satd, Nat.mul_comm satd dayMs⟩
    have hsplit2 := workingMillis_split (satd * dayMs) ((satd + 2) * dayMs) e hmid h2
      ⟨satd + 2, Nat.mul_comm _ dayMs⟩
    refine ⟨?_, hz⟩
    rw [hsplit1, hsplit2, hz, Nat.zero_add]
  · rw [isWithinOneWorkingDay, h17]
    decide

/-- Witness for C4's general part at Saturday index 2 (1970-01-03). -/
theorem workingHours_weekend_zero_witness :
    workingMillis 147600000 381600000 =
      workingMillis 147600000 (2 * dayMs) + workingMillis ((2 + 2) * dayMs) 381600000 ∧
    workingMillis (2 * dayMs) ((2 + 2) * dayMs) = 0 :=
  workingHours_weekend_zero.1 147600000 381600000 2 (by decide) (by decide) (by decide)

/-- Claim C5: for every instant, `getWeekStart` returns a Monday at midnight
(a multiple `k * dayMs` of the day length whose `getDay` value
`(k + 4) mod 7` is 1) that is at most the given instant and strictly
greater than the instant minus 7 days; in particular a Sunday instant's
week-start is the preceding Monday. -/
theorem getWeekStart_monday (t : Nat) :
    ∃ k : Int, getWeekStart t = k * (dayMs : Int) ∧ (k + 4) % 7 = 1 ∧
      getWeekStart t ≤ (t : Int) ∧ (t : Int) - 7 * (dayMs : Int) < getWeekStart t := by
  refine ⟨(dayIndex t : Int) -
      (((if dayOfWeek t = 0 then 6 else dayOfWeek t - 1 : Nat)) : Int), rfl, ?_, ?_, ?_⟩ <;>
    · simp only [getWeekStart, dayOfWeek, dayOfWeekDay, dayIndex, dayMs]
      have h1 : t / 86400000 * 86400000 ≤ t := Nat.div_mul_le_self t 86400000
      have h2 : t < t / 86400000 * 86400000 + 86400000 := by omega
      generalize hq : t / 86400000 = n at h1 h2 ⊢
      split <;> omega

/-- The `type` discriminator of `IssueData` (types.ts line 21). -/
inductive ItemType where
  | issue
  | pr
deriving DecidableEq, Repr

/-- `IssueData` (types.ts lines 9–22).  Instants are `Nat` milliseconds;
`weekStarting` is `Int` because `getWeekStart` can precede the epoch. -/
structure IssueData where
  repository : String
  number : Nat
  title : String
  createdAt : Nat
  firstResponseAt : Option Nat
  responseTimeHours : Option ℚ
  respondedBy : Option String
  reportedBy : Option String
  respondedWithinOneDay : Bool
  weekStarting : Int
  url : String
  type : ItemType
deriving DecidableEq

/-- An issue or review comment as consumed by `findFirstOrgResponse`:
`user?.login` (absent user modelled as `none`) and `created_at`. -/
structure CommentE where
  author : Option String
  created_at : Nat
deriving DecidableEq

/-- A formal review: `user?.login` and the nullable `submitted_at`. -/
structure ReviewE where
  author : Option String
  submitted_at : Option Nat
deriving DecidableEq

/-- The merge-relevant part of a full PR detail response:
`merged_at` and `merged_by?.login`, each nullable. -/
structure PrDetails where
  merged_at : Option Nat
  merged_by : Option String
deriving DecidableEq

/-- `isOrgMember` (github.ts): membership in the cached organization-member
set, the set modelled as a list of usernames. -/
def isOrgMember (orgMembers : List String) (username : String) : Bool :=
  orgMembers.contains username

/-- `isExcludedUser` (github.ts): membership in the unified exclude list
(team members + bots) built by `buildExcludeList`. -/
def isExcludedUser (excludedUsers : List String) (username : String) : Bool :=
  excludedUsers.contains username

/-- The reporter eligibility check of `fetchIssues` / `processPullRequest`:
`const author = user?.login || ''; if (this.isExcludedUser(author)) skip`.
Returns `true` when the item is kept. -/
def reporterAllowed (excludedUsers : List String) (author : Option String) : Bool :=
  !(isExcludedUser excludedUsers (author.getD ""))

/-- The qualifying-comment test of `findFirstOrgResponse`:
`author && this.isOrgMember(author)` (a JavaScript string is truthy iff
non-empty), yielding the `{date, author}` event. -/
def commentResponse (orgMembers : List String) (c : CommentE) : Option (Nat × String) :=
  match c.author with
  | some author =>
    if author != "" && isOrgMember orgMembers author then some (c.created_at, author)
    else none
  | none => none

/-- The qualifying-review test: `author && isOrgMember(author) &&
review.submitted_at`, yielding the event at the submission instant. -/
def reviewResponse (orgMembers : List String) (r : ReviewE) : Option (Nat × String) :=
  match r.author, r.submitted_at with
  | some author, some t =>
    if author != "" && isOrgMember orgMembers author then some (t, author) else none
  | _, _ => none

/-- The synthesized merge event: `prDetails?.merged_at &&
prDetails?.merged_by?.login` followed by `isOrgMember(mergedBy)`. -/
def mergeResponses (orgMembers : List String) (pd : Option PrDetails) :
    List (Nat × String) :=
  match pd with
  | some d =>
    match d.merged_at, d.merged_by with
    | some t, some mergedBy =>
      if mergedBy != "" then
        if isOrgMember orgMembers mergedBy then [(t, mergedBy)] else []
      else []
    | _, _ => []
  | none => []

/-- The `allResponses` accumulation of `findFirstOrgResponse` for PRs
(github.ts): qualifying issue comments, then review comments, then reviews,
then the merge event, in push order. -/
def allPrResponses (orgMembers : List String) (comments reviewComments : List CommentE)
    (reviews : List ReviewE) (prDetails : Option PrDetails) : List (Nat × String) :=
  comments.filterMap (commentResponse orgMembers) ++
    reviewComments.filterMap (commentResponse orgMembers) ++
    reviews.filterMap (reviewResponse orgMembers) ++
    mergeResponses orgMembers prDetails

/-- The earliest-selection step:
`allResponses.reduce((min, curr) => curr.date < min.date ? curr : min)`
(strict `<`, so ties keep the first-seen event), or null when empty. -/
def findFirstOrgResponsePr (orgMembers : List String)
    (comments reviewComments : List CommentE) (reviews : List ReviewE)
    (prDetails : Option PrDetails) : Option (Nat × String) :=
  match allPrResponses orgMembers comments reviewComments reviews prDetails with
  | [] => none
  | x :: xs => some (xs.foldl (fun mn curr => if curr.1 < mn.1 then curr else mn) x)

/-- `findFirstOrgResponse` for issues: scan the fetched comments in order
and return the first authored by an org member. -/
def findFirstOrgResponseIssue (orgMembers : List String) (comments : List CommentE) :
    Option (Nat × String) :=
  comments.findSome? (commentResponse orgMembers)

/-- Assembly of an `IssueData` record from a processed item
(github.ts, `fetchIssues` loop body and `processPullRequest`):
`firstResponseAt = firstResponse?.respondedAt || null`,
`responseTimeHours = firstResponse ? calculateWorkingHours(...) : null`,
`respondedWithinOneDay = firstResponse ? isWithinOneWorkingDay(...) : false`,
`weekStarting = getWeekStart(createdAt)`. -/
def mkIssueData (repo : String) (number : Nat) (title : String) (url : String)
    (ty : ItemType) (createdAt : Nat) (reportedBy : Option String)
    (firstResponse : Option (Nat × String)) : IssueData where
  repository := repo
  number := number
  title := title
  createdAt := createdAt
  firstResponseAt := firstResponse.map (·.1)
  responseTimeHours := firstResponse.map (fun r => calculateWorkingHours createdAt r.1)
  respondedBy := firstResponse.map (·.2)
  reportedBy := reportedBy
  respondedWithinOneDay :=
    match firstResponse with
    | some r => isWithinOneWorkingDay createdAt r.1
    | none => false
  weekStarting := getWeekStart createdAt
  url := url
  type := ty

/-- Claim C1: for every processed item (issue or PR), the assembled record has
`respondedWithinOneDay = true` iff a first response was resolved
(`firstResponseAt` non-null) and the elapsed business hours from creation to
it are at most 24; and `responseTimeHours` is null iff `firstResponseAt` is
null. -/
theorem record_response_invariants (repo title url : String) (number createdAt : Nat)
    (ty : ItemType) (reportedBy : Option String)
    (firstResponse : Option (Nat × String)) :
    ((mkIssueData repo number title url ty createdAt reportedBy
        firstResponse).respondedWithinOneDay = true ↔
      ∃ t, (mkIssueData repo number title url ty createdAt reportedBy
          firstResponse).firstResponseAt = some t ∧
        calculateWorkingHours createdAt t ≤ 24) ∧
    ((mkIssueData repo number title url ty createdAt reportedBy
        firstResponse).responseTimeHours = none ↔
      (mkIssueData repo number title url ty createdAt reportedBy
        firstResponse).firstResponseAt = none) := by
  cases firstResponse with
  | none => simp [mkIssueData]
  | some r => simp [mkIssueData, isWithinOneWorkingDay]

/-- The `reduce`-style minimum selection returns an element of the list that
is no later than every element. -/
lemma foldl_minBy_sound (xs : List (Nat × String)) :
    ∀ x : Nat × String,
      xs.foldl (fun mn curr => if curr.1 < mn.1 then curr else mn) x ∈ x :: xs ∧
      (xs.foldl (fun mn curr => if curr.1 < mn.1 then curr else mn) x).1 ≤ x.1 ∧
      ∀ y ∈ xs, (xs.foldl (fun mn curr => if curr.1 < mn.1 then curr else mn) x).1 ≤ y.1 := by
  induction xs with
  | nil => intro x; simp
  | cons a as ih =>
    intro x
    simp only [List.foldl_cons]
    obtain ⟨hmem, hle, hall⟩ := ih (if a.1 < x.1 then a else x)
    have hstep_le_x : (if a.1 < x.1 then a else x).1 ≤ x.1 := by
      split <;> omega
    have hstep_le_a : (if a.1 < x.1 then a else x).1 ≤ a.1 := by
      split <;> omega
    refine ⟨?_, le_trans hle hstep_le_x, ?_⟩
    · rcases List.mem_cons.mp hmem with h | h
      · rw [h]
        split
        · exact List.mem_cons_of_mem _ (List.mem_cons_self _ _)
        · exact List.mem_cons_self _ _
      · exact List.mem_cons_of_mem _ (List.mem_cons_of_mem _ h)
    · intro y hy
      rcases List.mem_cons.mp hy with h | h
      · rw [h] at *
        exact le_trans hle hstep_le_a
      · exact hall y h

/-- Claim C2: for every PR, `findFirstOrgResponse` returns the event with the
minimum timestamp among the qualifying events gathered from the four
sources (issue comments, review comments, reviews with non-null
`submitted_at`, and the synthesized merge event), and returns null exactly
when no qualifying event exists; in particular a PR with no comments or
reviews but merged by an org-member responder yields the response at the
merge instant. -/
theorem findFirstOrgResponsePr_spec (orgMembers : List String)
    (comments reviewComments : List CommentE) (reviews : List ReviewE)
    (prDetails : Option PrDetails) :
    (findFirstOrgResponsePr orgMembers comments reviewComments reviews prDetails = none ↔
      allPrResponses orgMembers comments reviewComments reviews prDetails = []) ∧
    (∀ r, findFirstOrgResponsePr orgMembers comments reviewComments reviews prDetails =
        some r →
      r ∈ allPrResponses orgMembers comments reviewComments reviews prDetails ∧
      ∀ y ∈ allPrResponses orgMembers comments reviewComments reviews prDetails,
        r.1 ≤ y.1) ∧
    (∀ (mergedAt : Nat) (mergedBy : String), mergedBy ≠ "" →
      isOrgMember orgMembers mergedBy = true →
      findFirstOrgResponsePr orgMembers [] [] [] (some ⟨some mergedAt, some mergedBy⟩) =
        some (mergedAt, mergedBy)) := by
  refine ⟨?_, ?_, ?_⟩
  · cases h : allPrResponses orgMembers comments reviewComments reviews prDetails with
    | nil => simp [findFirstOrgResponsePr, h]
    | cons x xs => simp [findFirstOrgResponsePr, h]
  · intro r hr
    cases h : allPrResponses orgMembers comments reviewComments reviews prDetails with
    | nil => simp [findFirstOrgResponsePr, h] at hr
    | cons x xs =>
      simp only [findFirstOrgResponsePr, h, Option.some.injEq] at hr
      obtain ⟨hmem, hle, hall⟩ := foldl_minBy_sound xs x
      rw [hr] at hmem hle hall
      refine ⟨hmem, ?_⟩
      intro y hy
      rcases List.mem_cons.mp hy with h1 | h1
      · rw [h1] at *; exact hle
      · exact hall y h1
  · intro mergedAt mergedBy hne hmem
    simp [findFirstOrgResponsePr, allPrResponses, mergeResponses, hmem, hne]

/-- Witness for C2 at a concrete input: the merge-only scenario, and the
returned event's membership in the gathered events. -/
theorem findFirstOrgResponsePr_spec_witness :
    findFirstOrgResponsePr ["maintainer"] [] [] []
        (some ⟨some 42, some "maintainer"⟩) = some (42, "maintainer") ∧
    (42, "maintainer") ∈ allPrResponses ["maintainer"] [] [] []
        (some ⟨some 42, some "maintainer"⟩) :=
  ⟨(findFirstOrgResponsePr_spec ["maintainer"] [] [] []
      (some ⟨some 42, some "maintainer"⟩)).2.2 42 "maintainer" (by decide) (by decide),
    ((findFirstOrgResponsePr_spec ["maintainer"] [] [] []
      (some ⟨some 42, some "maintainer"⟩)).2.1 (42, "maintainer") (by decide)).1⟩

/-- Claim C6 (refuted by the code): the exclusion set is applied to the
reporter check but NOT to the responder check — `findFirstOrgResponse`
tests `isOrgMember` only, never `isExcludedUser`, contradicting the
README's "first response from an organization member (excluding any users
in the exclude list)".  With `orgMembers = ["alice"]` and
`excludedUsers = ["alice"]`, alice is excluded as a reporter (her items are
dropped) yet her comment still qualifies as the first response. -/
theorem exclusion_not_applied_to_responder :
    isExcludedUser ["alice"] "alice" = true ∧
    reporterAllowed ["alice"] (some "alice") = false ∧
    findFirstOrgResponseIssue ["alice"] [⟨some "alice", 5⟩] = some (5, "alice") :=
  ⟨rfl, rfl, rfl⟩

/-- A raw issue as yielded by the search fetch (after the
`if (issue.pull_request) continue` guard): number, title, `created_at`,
`user?.login`, and URL. -/
structure RawIssue where
  number : Nat
  title : String
  created_at : Nat
  author : Option String
  url : String

/-- JavaScript `login || null`: an absent or empty login becomes null. -/
def jsLoginOrNull : Option String → Option String
  | some a => if a = "" then none else some a
  | none => none

/-- `findFirstOrgResponse` together with its own `try/catch`: ANY failure of
the per-item comment-stream fetch — a rate-limit failure included — is
caught, logged, and turned into "no response found"
(github.ts: `catch (error) { console.error(...); return null; }`). -/
def findFirstOrgResponseIssueFetched (orgMembers : List String)
    (commentsFetch : Except String (List CommentE)) : Option (Nat × String) :=
  match commentsFetch with
  | Except.error _ => none
  | Except.ok cs => findFirstOrgResponseIssue orgMembers cs

/-- One iteration of the `fetchIssues` loop body: drop items from excluded
reporters, otherwise run the response lookup (`commentsOf` gives each
item's comment-stream fetch outcome) and assemble the record. -/
def processIssueSearchItem (repo : String) (orgMembers excludedUsers : List String)
    (commentsOf : Nat → Except String (List CommentE)) (it : RawIssue) :
    Option IssueData :=
  if reporterAllowed excludedUsers it.author then
    some (mkIssueData repo it.number it.title it.url ItemType.issue it.created_at
      (jsLoginOrNull it.author)
      (findFirstOrgResponseIssueFetched orgMembers (commentsOf it.number)))
  else none

/-- `fetchIssues` (github.ts): its outer `try/catch` rethrows a failing
search fetch as `Failed to fetch issues for <repo>: <msg>`; the per-item
lookups inside the loop cannot throw, their errors having been consumed in
`findFirstOrgResponse`. -/
def fetchIssuesModel (repo : String) (orgMembers excludedUsers : List String)
    (search : Except String (List RawIssue))
    (commentsOf : Nat → Except String (List CommentE)) :
    Except String (List IssueData) :=
  match search with
  | Except.error msg =>
    Except.error ("Failed to fetch issues for " ++ repo ++ ": " ++ msg)
  | Except.ok items =>
    Except.ok (items.filterMap (processIssueSearchItem repo orgMembers excludedUsers
      commentsOf))

/-- `main`'s top-level catch (index.ts): a propagated error reaches
`process.exit(1)`; otherwise the run completes with exit code 0. -/
def runExitCode {α : Type} : Except String α → Nat
  | Except.error _ => 1
  | Except.ok _ => 0

/-- Claim C9 (refuted by the code): a fetch failure whose message indicates
rate-limit exhaustion is NOT always surfaced: when it hits the per-item
comment-stream lookup, `findFirstOrgResponse`'s catch-all swallows it, the
item is recorded as having no response, and the run ends with exit code 0
instead of aborting. -/
theorem rate_limit_swallowed_in_response_lookup :
    fetchIssuesModel "repo" ["alice"] [] (Except.ok [⟨1, "t", 0, some "bob", "u"⟩])
        (fun _ => Except.error "API rate limit exceeded") =
      Except.ok [mkIssueData "repo" 1 "t" "u" ItemType.issue 0 (some "bob") none] ∧
    runExitCode (fetchIssuesModel "repo" ["alice"] []
        (Except.ok [⟨1, "t", 0, some "bob", "u"⟩])
        (fun _ => Except.error "API rate limit exceeded")) = 0 :=
  ⟨rfl, rfl⟩

/-- Claim C9 (amended): a failing search-level fetch — rate-limit exhaustion
included — propagates as a distinctly labeled error and the run aborts with
exit code 1; but a failure during a per-item comment-stream lookup never
aborts: with a successful search the pipeline always returns ok and the run
exits 0, the failed item merely recorded as having no response. -/
theorem fetch_error_propagation (repo msg : String)
    (orgMembers excludedUsers : List String)
    (commentsOf : Nat → Except String (List CommentE)) (items : List RawIssue) :
    fetchIssuesModel repo orgMembers excludedUsers (Except.error msg) commentsOf =
      Except.error ("Failed to fetch issues for " ++ repo ++ ": " ++ msg) ∧
    runExitCode (fetchIssuesModel repo orgMembers excludedUsers (Except.error msg)
      commentsOf) = 1 ∧
    runExitCode (fetchIssuesModel repo orgMembers excludedUsers (Except.ok items)
      commentsOf) = 0 :=
  ⟨rfl, rfl, rfl⟩

/-- The result record of `calculateStats` (utils.ts lines 185–190). -/
structure RTStats where
  min : Option ℚ
  max : Option ℚ
  mean : Option ℚ
  median : Option ℚ
deriving DecidableEq

/-- `calculateStats` (utils.ts lines 185–209): all-null statistics on an
empty input; otherwise sort ascending (`[...responseTimes].sort((a,b) =>
a-b)`, modelled by `insertionSort`), then first element, last element,
arithmetic mean, and median (mean of the two central elements when the
length is even, the exact centre when odd). -/
def calculateStats (responseTimes : List ℚ) : RTStats :=
  if responseTimes.length = 0 then ⟨none, none, none, none⟩
  else
    let sorted := List.insertionSort (· ≤ ·) responseTimes
    let mn := sorted.getD 0 0
    let mx := sorted.getD (sorted.length - 1) 0
    let sum := sorted.foldl (· + ·) 0
    let mean := sum / (sorted.length : ℚ)
    let median :=
      if sorted.length % 2 = 0 then
        (sorted.getD (sorted.length / 2 - 1) 0 + sorted.getD (sorted.length / 2) 0) / 2
      else sorted.getD (sorted.length / 2) 0
    ⟨some mn, some mx, some mean, some median⟩

/-- `OverallMetrics` (types.ts lines 31–46). -/
structure OverallMetrics where
  totalIssues : Nat
  totalPRs : Nat
  issuesResponded : Nat
  prsResponded : Nat
  issuesWithinOneDay : Nat
  prsWithinOneDay : Nat
  issueResponseRate : ℚ
  prResponseRate : ℚ
  issueOneDayPercentage : ℚ
  prOneDayPercentage : ℚ
  minResponseTimeHours : Option ℚ
  maxResponseTimeHours : Option ℚ
  meanResponseTimeHours : Option ℚ
  medianResponseTimeHours : Option ℚ

/-- `calculateOverallMetrics` (metrics.ts lines 7–46). -/
def calculateOverallMetrics (data : List IssueData) : OverallMetrics :=
  let issues := data.filter (fun d => d.type == ItemType.issue)
  let prs := data.filter (fun d => d.type == ItemType.pr)
  let issuesResponded := (issues.filter (fun d => d.firstResponseAt.isSome)).length
  let prsResponded := (prs.filter (fun d => d.firstResponseAt.isSome)).length
  let issuesWithinOneDay := (issues.filter (fun d => d.respondedWithinOneDay)).length
  let prsWithinOneDay := (prs.filter (fun d => d.respondedWithinOneDay)).length
  let issueResponseRate : ℚ :=
    if 0 < issues.length then ((issuesResponded : ℚ) / (issues.length : ℚ)) * 100 else 0
  let prResponseRate : ℚ :=
    if 0 < prs.length then ((prsResponded : ℚ) / (prs.length : ℚ)) * 100 else 0
  let issueOneDayPercentage : ℚ :=
    if 0 < issues.length then ((issuesWithinOneDay : ℚ) / (issues.length : ℚ)) * 100
    else 0
  let prOneDayPercentage : ℚ :=
    if 0 < prs.length then ((prsWithinOneDay : ℚ) / (prs.length : ℚ)) * 100 else 0
  let responseTimes := data.filterMap (fun d => d.responseTimeHours)
  let stats := calculateStats responseTimes
  { totalIssues := issues.length
    totalPRs := prs.length
    issuesResponded := issuesResponded
    prsResponded := prsResponded
    issuesWithinOneDay := issuesWithinOneDay
    prsWithinOneDay := prsWithinOneDay
    issueResponseRate := issueResponseRate
    prResponseRate := prResponseRate
    issueOneDayPercentage := issueOneDayPercentage
    prOneDayPercentage := prOneDayPercentage
    minResponseTimeHours := stats.min
    maxResponseTimeHours := stats.max
    meanResponseTimeHours := stats.mean
    medianResponseTimeHours := stats.median }

/-- `WeeklySummary` (types.ts lines 24–29). -/
structure WeeklySummary where
  weekStarting : Int
  totalIssues : Nat
  respondedWithinOneDay : Nat
  percentage : ℚ
deriving DecidableEq

/-- The `weeklyMap` upsert of `calculateWeeklySummary` (metrics.ts lines
55–67): a JavaScript `Map` keyed by the week-start ISO string (two ISO
strings are equal iff the instants are), iterated in insertion order;
modelled as an ordered association list of `(week, total, withinOneDay)`. -/
def bumpWeek : List (Int × Nat × Nat) → Int → Bool → List (Int × Nat × Nat)
  | [], w, one => [(w, 1, if one then 1 else 0)]
  | (k, tot, c) :: rest, w, one =>
    if k = w then (k, tot + 1, if one then c + 1 else c) :: rest
    else (k, tot, c) :: bumpWeek rest w one

/-- The grouping pass of `calculateWeeklySummary` over all records. -/
def weeklyMap (data : List IssueData) : List (Int × Nat × Nat) :=
  data.foldl (fun acc d => bumpWeek acc d.weekStarting d.respondedWithinOneDay) []

/-- `calculateWeeklySummary` (metrics.ts lines 51–80): group by week key,
convert each bucket to a summary, and sort ascending by week-start
(`.sort((a, b) => a.weekStarting.getTime() - b.weekStarting.getTime())`). -/
def calculateWeeklySummary (data : List IssueData) : List WeeklySummary :=
  List.insertionSort (fun a b => a.weekStarting ≤ b.weekStarting)
    ((weeklyMap data).map (fun e =>
      { weekStarting := e.1
        totalIssues := e.2.1
        respondedWithinOneDay := e.2.2
        percentage := if 0 < e.2.1 then ((e.2.2 : ℚ) / (e.2.1 : ℚ)) * 100 else 0 }))

/-- A guarded percentage `count / total * 100` lies in `[0, 100]`. -/
lemma ratePct_bounds (a n : Nat) (h : a ≤ n) :
    0 ≤ (if 0 < n then ((a : ℚ) / (n : ℚ)) * 100 else 0) ∧
      (if 0 < n then ((a : ℚ) / (n : ℚ)) * 100 else 0) ≤ 100 := by
  split
  · rename_i hn
    have hn' : (0 : ℚ) < (n : ℚ) := by exact_mod_cast hn
    have hdiv : (a : ℚ) / (n : ℚ) ≤ 1 := by
      rw [div_le_one hn']
      exact_mod_cast h
    have hdiv0 : 0 ≤ (a : ℚ) / (n : ℚ) := by positivity
    constructor
    · positivity
    · nlinarith
  · norm_num

/-- Claim C7: for every input record list, the four rates/percentages of
`calculateOverallMetrics` lie within `[0, 100]`, and each equals exactly 0
— produced by the explicit guard, never by a division by zero — when the
corresponding partition (issues or PRs) is empty. -/
theorem overallMetrics_rates_safe (data : List IssueData) :
    (0 ≤ (calculateOverallMetrics data).issueResponseRate ∧
      (calculateOverallMetrics data).issueResponseRate ≤ 100) ∧
    (0 ≤ (calculateOverallMetrics data).prResponseRate ∧
      (calculateOverallMetrics data).prResponseRate ≤ 100) ∧
    (0 ≤ (calculateOverallMetrics data).issueOneDayPercentage ∧
      (calculateOverallMetrics data).issueOneDayPercentage ≤ 100) ∧
    (0 ≤ (calculateOverallMetrics data).prOneDayPercentage ∧
      (calculateOverallMetrics data).prOneDayPercentage ≤ 100) ∧
    (data.filter (fun d => d.type == ItemType.issue) = [] →
      (calculateOverallMetrics data).issueResponseRate = 0 ∧
      (calculateOverallMetrics data).issueOneDayPercentage = 0) ∧
    (data.filter (fun d => d.type == ItemType.pr) = [] →
      (calculateOverallMetrics data).prResponseRate = 0 ∧
      (calculateOverallMetrics data).prOneDayPercentage = 0) := by
  simp only [calculateOverallMetrics]
  refine ⟨ratePct_bounds _ _ (List.length_filter_le _ _),
    ratePct_bounds _ _ (List.length_filter_le _ _),
    ratePct_bounds _ _ (List.length_filter_le _ _),
    ratePct_bounds _ _ (List.length_filter_le _ _), ?_, ?_⟩
  · intro h
    rw [h]
    norm_num
  · intro h
    rw [h]
    norm_num

/-- Witness for C7's empty-partition clauses at the empty input list. -/
theorem overallMetrics_rates_safe_witness :
    ((calculateOverallMetrics []).issueResponseRate = 0 ∧
      (calculateOverallMetrics []).issueOneDayPercentage = 0) ∧
    ((calculateOverallMetrics []).prResponseRate = 0 ∧
      (calculateOverallMetrics []).prOneDayPercentage = 0) :=
  ⟨(overallMetrics_rates_safe []).2.2.2.2.1 rfl,
    (overallMetrics_rates_safe []).2.2.2.2.2 rfl⟩

lemma bumpWeek_sum (w : Int) (one : Bool) :
    ∀ acc : List (Int × Nat × Nat),
      ((bumpWeek acc w one).map (fun e => e.2.1)).sum =
        (acc.map (fun e => e.2.1)).sum + 1 := by
  intro acc
  induction acc with
  | nil => simp [bumpWeek]
  | cons x rest ih =>
    obtain ⟨k, tot, c⟩ := x
    simp only [bumpWeek]
    split
    · simp only [List.map_cons, List.sum_cons]
      omega
    · simp only [List.map_cons, List.sum_cons, ih]
      omega

lemma bumpWeek_pos (w : Int) (one : Bool) :
    ∀ acc : List (Int × Nat × Nat), (∀ e ∈ acc, 0 < e.2.1) →
      ∀ e ∈ bumpWeek acc w one, 0 < e.2.1 := by
  intro acc
  induction acc with
  | nil =>
    intro _ e he
    simp only [bumpWeek, List.mem_singleton] at he
    subst he
    exact Nat.zero_lt_one
  | cons x rest ih =>
    obtain ⟨k, tot, c⟩ := x
    intro h e he
    simp only [bumpWeek] at he
    split at he
    · rcases List.mem_cons.mp he with rfl | hmem
      · exact Nat.succ_pos _
      · exact h e (List.mem_cons_of_mem _ hmem)
    · rcases List.mem_cons.mp he with rfl | hmem
      · exact h _ (List.mem_cons_self _ _)
      · exact ih (fun y hy => h y (List.mem_cons_of_mem _ hy)) e hmem

lemma weeklyFold_sum (data : List IssueData) :
    ∀ acc : List (Int × Nat × Nat),
      (((data.foldl
          (fun acc d => bumpWeek acc d.weekStarting d.respondedWithinOneDay)
          acc).map (fun e => e.2.1)).sum) =
        (acc.map (fun e => e.2.1)).sum + data.length := by
  induction data with
  | nil => intro acc; simp
  | cons d ds ih =>
    intro acc
    simp only [List.foldl_cons, List.length_cons]
    rw [ih (bumpWeek acc d.weekStarting d.respondedWithinOneDay),
      bumpWeek_sum d.weekStarting d.respondedWithinOneDay acc]
    omega

lemma weeklyFold_pos (data : List IssueData) :
    ∀ acc : List (Int × Nat × Nat), (∀ e ∈ acc, 0 < e.2.1) →
      ∀ e ∈ data.foldl
          (fun acc d => bumpWeek acc d.weekStarting d.respondedWithinOneDay) acc,
        0 < e.2.1 := by
  induction data with
  | nil => intro acc h; simpa using h
  | cons d ds ih =>
    intro acc h
    simp only [List.foldl_cons]
    exact ih _ (bumpWeek_pos d.weekStarting d.respondedWithinOneDay acc h)

/-- Claim C8: `calculateWeeklySummary` counts every record in exactly one
weekly bucket (the per-week totals sum to the number of input records), its
output is ordered ascending by week-start, and no summary with zero total
items is ever emitted. -/
theorem weeklySummary_partition (data : List IssueData) :
    ((calculateWeeklySummary data).map (fun s => s.totalIssues)).sum = data.length ∧
    List.Pairwise (fun a b : WeeklySummary => a.weekStarting ≤ b.weekStarting)
      (calculateWeeklySummary data) ∧
    (calculateWeeklySummary data).all (fun s => s.totalIssues != 0) = true := by
  haveI htot : IsTotal WeeklySummary (fun a b => a.weekStarting ≤ b.weekStarting) :=
    ⟨fun a b => le_total a.weekStarting b.weekStarting⟩
  haveI htrans : IsTrans WeeklySummary (fun a b => a.weekStarting ≤ b.weekStarting) :=
    ⟨fun _ _ _ hab hbc => le_trans hab hbc⟩
  simp only [calculateWeeklySummary]
  have hperm := List.perm_insertionSort
    (fun a b : WeeklySummary => a.weekStarting ≤ b.weekStarting)
    ((weeklyMap data).map (fun e =>
      { weekStarting := e.1
        totalIssues := e.2.1
        respondedWithinOneDay := e.2.2
        percentage := if 0 < e.2.1 then ((e.2.2 : ℚ) / (e.2.1 : ℚ)) * 100
          else 0 : WeeklySummary }))
  refine ⟨?_, ?_, ?_⟩
  · rw [(hperm.map (fun s => s.totalIssues)).sum_eq, List.map_map]
    have : ((fun s : WeeklySummary => s.totalIssues) ∘ (fun e : Int × Nat × Nat =>
        ({ weekStarting := e.1
           totalIssues := e.2.1
           respondedWithinOneDay := e.2.2
           percentage := if 0 < e.2.1 then ((e.2.2 : ℚ) / (e.2.1 : ℚ)) * 100
             else 0 } : WeeklySummary))) = fun e : Int × Nat × Nat => e.2.1 := rfl
    rw [this, weeklyMap, weeklyFold_sum data []]
    simp
  · exact List.sorted_insertionSort _ _
  · rw [List.all_eq_true]
    intro s hs
    have hs' := hperm.mem_iff.mp hs
    obtain ⟨e, he, rfl⟩ := List.mem_map.mp hs'
    have hpos := weeklyFold_pos data [] (by simp) e he
    simpa [bne_iff_ne] using Nat.pos_iff_ne_zero.mp hpos

/-- Claim C10: when no record in the input has a non-null
`responseTimeHours` (in particular on the empty list),
`calculateOverallMetrics` returns all four duration statistics as null —
not 0; and for every non-empty list of response times, `calculateStats`
returns all four statistics present with min ≤ median ≤ max and
min ≤ mean ≤ max. -/
theorem stats_null_and_ordered :
    (∀ data : List IssueData,
      data.filterMap (fun d => d.responseTimeHours) = [] →
      (calculateOverallMetrics data).minResponseTimeHours = none ∧
      (calculateOverallMetrics data).maxResponseTimeHours = none ∧
      (calculateOverallMetrics data).meanResponseTimeHours = none ∧
      (calculateOverallMetrics data).medianResponseTimeHours = none) ∧
    (∀ ts : List ℚ, ts ≠ [] →
      (calculateStats ts).min.isSome = true ∧
      (calculateStats ts).max.isSome = true ∧
      (calculateStats ts).mean.isSome = true ∧
      (calculateStats ts).median.isSome = true ∧
      (calculateStats ts).min.getD 0 ≤ (calculateStats ts).median.getD 0 ∧
      (calculateStats ts).median.getD 0 ≤ (calculateStats ts).max.getD 0 ∧
      (calculateStats ts).min.getD 0 ≤ (calculateStats ts).mean.getD 0 ∧
      (calculateStats ts).mean.getD 0 ≤ (calculateStats ts).max.getD 0) := by
  constructor
  · intro data h
    simp only [calculateOverallMetrics]
    rw [h]
    exact ⟨rfl, rfl, rfl, rfl⟩
  · intro ts hne
    have hlen0 : ¬ ts.length = 0 := fun h => hne (List.length_eq_zero.mp h)
    simp only [calculateStats, if_neg hlen0, Option.isSome_some, Option.getD_some,
      true_and]
    set s := List.insertionSort (· ≤ ·) ts with hs
    have hperm : s.Perm ts := List.perm_insertionSort _ ts
    have hsorted : List.Sorted (· ≤ ·) s := List.sorted_insertionSort _ ts
    have hn : 0 < s.length := by
      rw [hperm.length_eq]
      omega
    have hmonoD : ∀ i j : Nat, i ≤ j → j < s.length → s.getD i 0 ≤ s.getD j 0 := by
      intro i j hij hj
      rw [List.getD_eq_getElem s 0 (lt_of_le_of_lt hij hj), List.getD_eq_getElem s 0 hj]
      rcases Nat.lt_or_ge i j with hlt | hge
      · exact List.pairwise_iff_getElem.mp hsorted i j _ _ hlt
      · have hij' : i = j := le_antisymm hij hge
        subst hij'
        exact le_refl _
    have hmem_bounds : ∀ x ∈ s, s.getD 0 0 ≤ x ∧ x ≤ s.getD (s.length - 1) 0 := by
      intro x hx
      obtain ⟨i, hi, rfl⟩ := List.mem_iff_getElem.mp hx
      rw [← List.getD_eq_getElem s 0 hi]
      exact ⟨hmonoD 0 i (Nat.zero_le i) hi, hmonoD i (s.length - 1) (by omega) (by omega)⟩
    have hsum_eq : s.foldl (· + ·) 0 = s.sum := List.sum_eq_foldl.symm
    have hsum_le : s.sum ≤ s.length • (s.getD (s.length - 1) 0) :=
      List.sum_le_card_nsmul s _ (fun x hx => (hmem_bounds x hx).2)
    have hsum_ge : s.length • (s.getD 0 0) ≤ s.sum :=
      List.card_nsmul_le_sum s _ (fun x hx => (hmem_bounds x hx).1)
    have hnQ : (0 : ℚ) < (s.length : ℚ) := by exact_mod_cast hn
    have hmean_le : (s.foldl (· + ·) 0) / (s.length : ℚ) ≤ s.getD (s.length - 1) 0 := by
      rw [nsmul_eq_mul] at hsum_le
      rw [hsum_eq, div_le_iff₀ hnQ]
      linarith
    have hmean_ge : s.getD 0 0 ≤ (s.foldl (· + ·) 0) / (s.length : ℚ) := by
      rw [nsmul_eq_mul] at hsum_ge
      rw [hsum_eq, le_div_iff₀ hnQ]
      linarith
    have hmed_lo : s.getD 0 0 ≤
        (if s.length % 2 = 0 then
          (s.getD (s.length / 2 - 1) 0 + s.getD (s.length / 2) 0) / 2
        else s.getD (s.length / 2) 0) := by
      split
      · have a1 := hmonoD 0 (s.length / 2 - 1) (by omega) (by omega)
        have a2 := hmonoD 0 (s.length / 2) (by omega) (by omega)
        linarith
      · exact hmonoD 0 (s.length / 2) (by omega) (by omega)
    have hmed_hi :
        (if s.length % 2 = 0 then
          (s.getD (s.length / 2 - 1) 0 + s.getD (s.length / 2) 0) / 2
        else s.getD (s.length / 2) 0) ≤ s.getD (s.length - 1) 0 := by
      split
      · have b1 := hmonoD (s.length / 2 - 1) (s.length - 1) (by omega) (by omega)
        have b2 := hmonoD (s.length / 2) (s.length - 1) (by omega) (by omega)
        linarith
      · exact hmonoD (s.length / 2) (s.length - 1) (by omega) (by omega)
    exact ⟨hmed_lo, hmed_hi, hmean_ge, hmean_le⟩

/-- Witness for C10 at the empty record list and the response times `[3]`. -/
theorem stats_null_and_ordered_witness :
    ((calculateOverallMetrics []).minResponseTimeHours = none ∧
      (calculateOverallMetrics []).maxResponseTimeHours = none ∧
      (calculateOverallMetrics []).meanResponseTimeHours = none ∧
      (calculateOverallMetrics []).medianResponseTimeHours = none) ∧
    ((calculateStats [3]).min.isSome = true ∧
      (calculateStats [3]).max.isSome = true ∧
      (calculateStats [3]).mean.isSome = true ∧
      (calculateStats [3]).median.isSome = true ∧
      (calculateStats [3]).min.getD 0 ≤ (calculateStats [3]).median.getD 0 ∧
      (calculateStats [3]).median.getD 0 ≤ (calculateStats [3]).max.getD 0 ∧
      (calculateStats [3]).min.getD 0 ≤ (calculateStats [3]).mean.getD 0 ∧
      (calculateStats [3]).mean.getD 0 ≤ (calculateStats [3]).max.getD 0) :=
  ⟨stats_null_and_ordered.1 [] rfl, stats_null_and_ordered.2 [3] (by decide)⟩
